import Mathlib

/-!
# Verification of the logreplay HTTP replay controller

Shallow embedding of the `logreplay` package (the replay controller, the
scenario cursor, the session workers, the throttle accumulator and the random
payload generator) and proofs about its behaviour.

Modelling conventions:
* Go `int` fields become `Int` (counters that only grow become `Nat`);
  `float64` quantities (content-length deviation, throttle) become `ℚ`.
* The access log is modelled as the list of request entries the reader yields
  before `io.EOF`; `accessLog = none` is a retired (or absent) reader.
  Scanner read failures are outside this model (they feed the generic error
  branch of `checkError`, which is modelled separately via `PErr`).
* Fallible Go code (a `rand.Intn` call that can panic) returns `Option`.
* Channel sends to the replay driver are modelled as a state-transition
  function `serve` driven by an explicit schedule of worker indices.
-/

namespace Logreplay

/-- `Request` from logreplay.go: one request descriptor of the scenario. -/
structure Request where
  method : String
  host : String
  path : String
  contentLength : Int
  contentLengthDeviation : ℚ
  setContentLength : Bool
deriving DecidableEq

/-- The option fields of `Options` that the controller, the client and the
workers consult (`Requests` is the user-supplied scenario suffix). -/
structure Options where
  requests : List Request
  server : String
  defaultScheme : String
  concurrentSessions : Int
  postContentLength : Int
  postContentLengthDeviation : ℚ
  postSetContentLength : Bool
  haltOn500 : Bool
  haltThreshold : Int
  throttle : ℚ
deriving DecidableEq

/-- `Options` with every field at its Go zero value, as in `New(Options{})`. -/
def blankOptions : Options :=
  { requests := []
    server := ""
    defaultScheme := ""
    concurrentSessions := 0
    postContentLength := 0
    postContentLengthDeviation := 0
    postSetContentLength := false
    haltOn500 := false
    haltThreshold := 0
    throttle := 0 }

/-- `defaultHaltThreshold = 1 << 7` from logreplay.go. -/
def defaultHaltThreshold : Int := 2 ^ 7

/-- Controller state: the scenario cursor (memoized log entries, the
remaining access log, the user request list) plus the two consecutive
failure counters. -/
structure Player where
  options : Options
  logEntries : List Request
  accessLog : Option (List Request)
  customRequests : List Request
  errors : Nat
  serverErrors : Nat
deriving DecidableEq

/-- `Player.contentSettings`: overlay the configured content settings on
POST/PUT/PATCH entries taken from the access log; other methods pass
through unchanged. -/
def contentSettings (o : Options) (r : Request) : Request :=
  if r.method = "POST" ∨ r.method = "PUT" ∨ r.method = "PATCH" then
    { r with
      contentLength := o.postContentLength
      contentLengthDeviation := o.postContentLengthDeviation
      setContentLength := o.postSetContentLength }
  else r

/-- The `p.accessLog == nil` tail of `Player.nextRequest`: serve from the
memoized entries, then from the user request list, else report end of
scenario (`io.EOF`, modelled as `none`). -/
def nextRequestRetired (p : Player) (position : Nat) : Option Request × Player :=
  if h : position < p.logEntries.length then
    (some (contentSettings p.options (p.logEntries.get ⟨position, h⟩)), p)
  else
    let pc := position - p.logEntries.length
    if h2 : pc < p.customRequests.length then
      (some (p.customRequests.get ⟨pc, h2⟩), p)
    else
      (none, p)

/-- `Player.nextRequest`: the scenario cursor. Positions below the memoized
log section return the (content-settings overlaid) memoized entry; above it,
while the reader is live, the next log entry is read, overlaid and appended
(the Go code mutates the stored entry in place, so the memoized entry equals
the overlaid one); on reader EOF the reader is retired and the lookup is
retried against the user request list. -/
def nextRequest (p : Player) (position : Nat) : Option Request × Player :=
  if h : position < p.logEntries.length then
    (some (contentSettings p.options (p.logEntries.get ⟨position, h⟩)), p)
  else
    match p.accessLog with
    | none => nextRequestRetired p position
    | some [] => nextRequestRetired { p with accessLog := none } position
    | some (e :: rest) =>
      let e' := contentSettings p.options e
      (some e', { p with logEntries := p.logEntries ++ [e'], accessLog := some rest })

/-- `Player.checkHaltError`: true when the request-error counter is no longer
below the halt threshold. -/
def checkHaltError (p : Player) : Bool :=
  if (p.errors : Int) < p.options.haltThreshold then false else true

/-- `Player.checkHaltStatus`: true when `HaltOn500` is set and the
server-error counter is no longer below the halt threshold. -/
def checkHaltStatus (p : Player) : Bool :=
  if ¬p.options.haltOn500 ∨ (p.serverErrors : Int) < p.options.haltThreshold then false
  else true

/-- The error values the controller distinguishes: `ErrServerError`,
`ErrRequestError`, `ErrNoRequests`, and any other (transport/read) error,
which the `switch` in `checkError` handles in its `default` branch. -/
inductive PErr where
  | serverError
  | requestError
  | noRequests
  | transportError
deriving DecidableEq

/-- `Player.checkError`: fold one reported result into the failure counters
and decide whether the session must halt (`some` = terminal error). -/
def checkError (p : Player) (e : Option PErr) : Player × Option PErr :=
  match e with
  | none => ({ p with errors := 0, serverErrors := 0 }, none)
  | some .noRequests => (p, some .noRequests)
  | some .serverError =>
    let p' := { p with serverErrors := p.serverErrors + 1 }
    if checkHaltStatus p' then (p', some .serverError) else (p', none)
  | some _ =>
    let p' := { p with errors := p.errors + 1 }
    if checkHaltError p' then (p', some .requestError) else (p', none)

/-- Fold `checkError` over a sequence of reported results (the driver's
`results` channel), stopping at the first terminal error. -/
def runResults (p : Player) : List (Option PErr) → Option PErr
  | [] => none
  | e :: es =>
    match checkError p e with
    | (p', none) => runResults p' es
    | (_, some t) => some t

/-- The length of the longest run of consecutive failed results (no
intervening success) in a result sequence, continuing a current run of
length `cur`. -/
def maxFailStreakAux (cur : Nat) : List (Option PErr) → Nat
  | [] => cur
  | none :: es => Nat.max cur (maxFailStreakAux 0 es)
  | some _ :: es => maxFailStreakAux (cur + 1) es

/-- The length of the longest run of consecutive failed results in a result
sequence. -/
def maxFailStreak (es : List (Option PErr)) : Nat := maxFailStreakAux 0 es

/-- The option normalization performed by `New`: default scheme and
concurrency get their defaults; note that `HaltThreshold` is left untouched. -/
def NewOptions (o : Options) : Options :=
  { o with
    defaultScheme := if o.defaultScheme = "" then "http" else o.defaultScheme
    concurrentSessions := if o.concurrentSessions ≤ 0 then 1 else o.concurrentSessions }

/-- `New`: build an idle player from options and the (parsed) access log
stream; counters and the memoized log section start empty. -/
def New (o : Options) (accessLog : Option (List Request)) : Player :=
  { options := NewOptions o
    logEntries := []
    accessLog := accessLog
    customRequests := o.requests
    errors := 0
    serverErrors := 0 }

/-! ## The session fabric: workers, the request feed, and termination -/

/-- One session worker (`player` in part_002): its private cursor position,
whether its feed channel has been closed, and (ghost, for specification) the
descriptors it has dispatched, in order. -/
structure Worker where
  position : Nat
  closed : Bool
  dispatched : List Request
deriving DecidableEq

/-- One running session: the controller state, the mode flag set by the last
`Play`/`Once` signal, the workers, a ghost count of successful dispatches and
the terminal value delivered to every waiting caller once the driver stops
(`some e`: the driver ran `stop` and handed `e` to each waiter). -/
structure Session where
  player : Player
  once : Bool
  workers : List Worker
  successes : Nat
  result : Option (Option PErr)
deriving DecidableEq

/-- One interaction of worker `i` with the driver, against a server that
always answers 2xx: the worker offers `(position, feed)`, the driver answers
via `feedRequest`, and on a descriptor the worker dispatches it successfully.
The report of the nil result is folded into the same step: with a 2xx server
every result is nil, and `checkError nil` only zeroes the counters, so the
fusion changes no observable of the session. A worker whose feed channel is
already closed no longer dispatches; its residual offer is a no-op (the
`stopPlayer` search finds no player for its channel). -/
def serve (s : Session) (i : Nat) : Session :=
  if s.result.isSome then s
  else
    match s.workers[i]? with
    | none => s
    | some w =>
      if w.closed then s
      else
        match nextRequest s.player w.position with
        | (some r, p1) =>
          -- feedRequest sends a copy of `r`; the worker advances, dispatches
          -- it (2xx ⇒ nil result), and the driver resets the counters.
          { s with
            player := (checkError p1 none).1
            workers := s.workers.set i
              { w with position := w.position + 1, dispatched := w.dispatched ++ [r] }
            successes := s.successes + 1 }
        | (none, p1) =>
          -- io.EOF: end of scenario at this worker's position.
          if s.once then
            let ws := s.workers.set i { w with closed := true }
            if ws.all (·.closed) then
              -- the dropped worker was the last one: stop(nil)
              { s with player := (checkError p1 none).1, workers := ws,
                       result := some (checkError p1 none).2 }
            else
              { s with player := p1, workers := ws }
          else if w.position = 0 then
            -- loop mode, empty scenario from the very first position: stop(ErrNoRequests)
            -- (the feed-channel closing performed by `stop` is modelled by `stopAll`)
            { s with player := (checkError p1 (some .noRequests)).1,
                     result := some (checkError p1 (some .noRequests)).2 }
          else
            -- loop mode: reset sentinel (`f.response <- nil`)
            { s with player := p1, workers := s.workers.set i { w with position := 0 } }

/-- Run a session along a schedule of worker indices (the order in which the
driver's select serves worker offers). -/
def runSession (s : Session) (sch : List Nat) : Session :=
  sch.foldl serve s

/-- A fresh `Once` session over `n` workers, as set up by `Player.run` after
the `Once` signal. -/
def initSession (o : Options) (accessLog : Option (List Request)) (n : Nat) : Session :=
  { player := New o accessLog
    once := true
    workers := List.replicate n ⟨0, false, []⟩
    successes := 0
    result := none }

/-- The scenario a session replays: the (content-settings overlaid) access
log entries followed by the user request list. -/
def sessionScenario (o : Options) (accessLog : Option (List Request)) : List Request :=
  (accessLog.getD []).map (contentSettings (NewOptions o)) ++ o.requests

/-- The scenario determined by log lines `ll` and user requests `cs` under
options `opts`: the overlaid log entries followed by the user suffix. -/
def scenarioOf (opts : Options) (ll cs : List Request) : List Request :=
  ll.map (contentSettings opts) ++ cs

/-- Cursor coherence: the memoized section holds (the overlaid images of)
the first `n` log lines, and the reader holds the rest — or it has been
retired after yielding all of them. -/
def PlayerCursorInv (opts : Options) (ll cs : List Request) (p : Player) (n : Nat) : Prop :=
  p.options = opts ∧ p.customRequests = cs ∧ n ≤ ll.length ∧
  p.logEntries = (ll.take n).map (contentSettings opts) ∧
  (p.accessLog = some (ll.drop n) ∨ (p.accessLog = none ∧ n = ll.length))

/-- Invariant of a running once-mode session over the scenario
`scenarioOf opts ll cs`: the cursor is coherent; every worker has dispatched
exactly the scenario positions below its own cursor, in order; a worker
whose feed was closed has finished the whole scenario; while the reader is
live no worker is closed or ahead of the memoized section; and the success
count is the sum of the worker positions. -/
def SessionInv (opts : Options) (ll cs : List Request) (s : Session) : Prop :=
  s.once = true ∧
  (∃ n, PlayerCursorInv opts ll cs s.player n) ∧
  (∀ w ∈ s.workers,
    w.position ≤ (scenarioOf opts ll cs).length ∧
    w.dispatched = (scenarioOf opts ll cs).take w.position ∧
    (w.closed = true → w.position = (scenarioOf opts ll cs).length)) ∧
  (∀ t, s.player.accessLog = some t → ∀ w ∈ s.workers,
    w.closed = false ∧ w.position ≤ s.player.logEntries.length) ∧
  s.successes = (s.workers.map (·.position)).sum

/-- One iteration of the loop in `Player.stop`: `stopPlayer(i, nil)` closes
the feed of the player at index `i` of the current list and removes it; an
out-of-range index is a no-op. State: (players still live, feeds closed so
far). Players are identified by their index in the original list. -/
def stopPlayerStep (ps : List Nat × List Nat) (i : Nat) : List Nat × List Nat :=
  if h : i < ps.1.length then
    (ps.1.eraseIdx i, ps.2 ++ [ps.1.get ⟨i, h⟩])
  else ps

/-- The `for i := range p.players { p.stopPlayer(i, nil) }` loop of
`Player.stop`: the range bound is the original length, while `stopPlayer`
mutates the list it indexes. Returns (players whose feed was never closed,
feeds closed, in order). -/
def stopAll (players : List Nat) : List Nat × List Nat :=
  (List.range players.length).foldl stopPlayerStep (players, [])

/-! ## The per-worker throttle accumulator -/

/-- One update of the throttle accumulator in `player.throttle` (part_002):
given the lag before the request and `slack = maxRequestDuration − elapsed`,
returns `(sleep performed, lag after)`. Durations are nanosecond integers. -/
def throttleStep (lag slack : Int) : Int × Int :=
  let negativeLag := lag < 0
  let lag1 := lag + slack
  let lag2 := if negativeLag ∧ slack < 0 then 0 else lag1
  if 0 < lag2 then (lag2, 0) else (0, lag2)

/-- The update rule as the specification words it: the sum is kept unclamped
while the accumulator is negative, and a negative slack that would push a
non-negative accumulator below zero is floored at zero. Stated for
comparison with `throttleStep`. -/
def throttleStepClaim (lag slack : Int) : Int × Int :=
  let lag1 := lag + slack
  let lag2 := if 0 ≤ lag ∧ lag1 < 0 then 0 else lag1
  if 0 < lag2 then (lag2, 0) else (0, lag2)

/-! ## The HTTP client adapter and the random payload generator -/

/-- Truncation toward zero, as Go's `int(x)` conversion. -/
def ratTrunc (q : ℚ) : Int :=
  if 0 ≤ q then ⌊q⌋ else -⌊-q⌋

/-- `rand.Intn`: a uniform value in `[0, n)`; panics (`none`) when `n ≤ 0`.
The randomness source is an arbitrary natural, reduced modulo `n`. -/
def intn (n : Int) (rnd : Nat) : Option Int :=
  if n ≤ 0 then none else some ((rnd : Int) % n)

/-- `deviate` from rand.go: `i + rand.Intn(2*di) - di` with
`di = int(float64(i) * d)`. -/
def deviate (i : Int) (d : ℚ) (rnd : Nat) : Option Int :=
  let di := ratTrunc ((i : ℚ) * d)
  (intn (2 * di) rnd).map (fun v => i + v - di)

/-- `deviateMin` from rand.go: `deviate`, clamped below at zero. -/
def deviateMin (i : Int) (d : ℚ) (rnd : Nat) : Option Int :=
  (deviate i d rnd).map (fun v => if v < 0 then 0 else v)

/-- The observable parts of the `http.Request` built by
`client.createHTTPRequest` (part_000): `body = some n` is an attached random
payload of `n` bytes; `contentLengthHeader` is the `ContentLength` field of
the request, `0` meaning unset (chunked body). -/
structure BuiltRequest where
  method : String
  url : String
  host : String
  body : Option Int
  contentLengthHeader : Int
deriving DecidableEq

/-- The network address computed by `client.createHTTPRequest`: the
configured server, else the descriptor host (else `localhost`) with the
default scheme prepended when no scheme is present. -/
def requestAddress (o : Options) (r : Request) : String :=
  if o.server = "" then
    let a := if r.host = "" then "localhost" else r.host
    if a.startsWith "http://" ∨ a.startsWith "https://" then a
    else o.defaultScheme ++ "://" ++ a
  else o.server

/-- The `Host` header computed by `client.createHTTPRequest`. -/
def hostHeader (o : Options) (r : Request) : String :=
  if r.host = "" then (if o.server = "" then "localhost" else o.server) else r.host

/-- `client.createHTTPRequest`: build the outgoing request. A payload is
attached when `ContentLength > 0` or `ContentLengthDeviation > 0`, its size
drawn by `deviateMin`; `none` models the `rand.Intn` panic inside `deviate`.
(`url.Parse` and `http.NewRequest` cannot fail on the addresses built here
and are not modelled as fallible.) -/
def createHTTPRequest (o : Options) (r : Request) (rnd : Nat) : Option BuiltRequest :=
  let m := if r.method = "" then "GET" else r.method
  let a := requestAddress o r
  if 0 < r.contentLength ∨ 0 < r.contentLengthDeviation then
    match deviateMin r.contentLength r.contentLengthDeviation rnd with
    | none => none
    | some cl =>
      some { method := m, url := a, host := hostHeader o r, body := some cl
             contentLengthHeader := if r.setContentLength then cl else 0 }
  else
    some { method := m, url := a, host := hostHeader o r, body := none
           contentLengthHeader := 0 }

/-! ## Concrete values used by witnesses and counterexamples -/

/-- A blank GET descriptor. -/
def blankGet : Request := ⟨"", "", "/a", 0, 0, false⟩

/-- Options with one blank request as the scenario. -/
def oneRequestOptions : Options := { blankOptions with requests := [blankGet] }

/-- A POST entry as parsed from a one-line access log. -/
def logPostEntry : Request := ⟨"POST", "h", "/p", 0, 0, false⟩

/-- A two-worker once-mode session over a scenario of two descriptors: one
access-log entry followed by one user request. -/
def twoWorkerSession : Session :=
  initSession oneRequestOptions (some [logPostEntry]) 2

/-- A schedule that drives `twoWorkerSession` to completion. -/
def twoWorkerSchedule : List Nat := [0, 1, 0, 1, 0, 1]

/-- A once-mode session over the empty scenario with one worker. -/
def emptyOnceSession : Session := initSession blankOptions none 1

/-- A loop-mode session over the empty scenario with one worker. -/
def emptyLoopSession : Session := { emptyOnceSession with once := false }

/-- A PUT descriptor with content length 500, deviation 1/10 and an explicit
Content-Length header. -/
def contentPut : Request := ⟨"PUT", "", "/w", 500, 1/10, true⟩

/-- Options pointing at an explicit test server. -/
def serverOptions : Options := { blankOptions with server := "http://sv" }

/-- The request built from `contentPut` against `serverOptions`, with
randomness 7. -/
def contentPutBuilt : BuiltRequest :=
  { method := "PUT", url := "http://sv", host := "http://sv"
    body := some 457, contentLengthHeader := 457 }

/-- A POST descriptor with content length 0 and deviation 1/2. -/
def zeroLengthPost : Request := ⟨"POST", "", "/x", 0, 1/2, true⟩

/-- A player whose halt threshold is 2 (and counters are zero). -/
def thresholdTwoPlayer : Player :=
  New { blankOptions with haltThreshold := 2 } none

/-- A player over a one-entry memoized log section. -/
def memoPlayer : Player :=
  { New blankOptions none with logEntries := [⟨"POST", "h", "/p", 3, 0, false⟩] }

/-! # Theorems -/

/-- **C4** (code bug evaluated at the failing input). `New` leaves an unset
`HaltThreshold` at `0` — `defaultHaltThreshold = 128` is declared but never
applied — so with default options the very first failed request already
satisfies `checkHaltError` and `checkError` halts with `ErrRequestError`,
although the `Options` documentation and the spec promise a default of 128
consecutive failures. -/
theorem halt_threshold_default_never_applied :
    (New blankOptions none).options.haltThreshold = 0
    ∧ defaultHaltThreshold = 128
    ∧ checkHaltError { New blankOptions none with errors := 1 } = true
    ∧ (checkError (New blankOptions none) (some .transportError)).2
        = some PErr.requestError := by
  decide

/-- **C8** (code bug evaluated at the failing input). The
`for i := range p.players { p.stopPlayer(i, nil) }` loop in `Player.stop`
removes entries from the list it is indexing, so it closes only the feed
channels of the players at even positions of the original list: with two
workers, worker 1's reply channel is never closed and that worker never
exits, contradicting the claim that `Stop` returns only after every worker's
reply channel has been closed and every worker has exited. -/
theorem stop_close_loop_skips_workers :
    stopAll [0, 1] = ([1], [0]) ∧ stopAll [0, 1, 2, 3] = ([1, 3], [0, 2]) := by
  decide

/-- **C7, counterexample.** The throttle accumulator does not obey the
spec's update rule: with `lag = 0` and `slack = −5` the code keeps the
accumulator at `−5` (no floor), while the claimed rule floors it at `0`. -/
theorem throttle_claimed_rule_counterexample :
    throttleStep 0 (-5) = (0, -5)
    ∧ throttleStepClaim 0 (-5) = (0, 0)
    ∧ throttleStep 0 (-5) ≠ throttleStepClaim 0 (-5) := by
  decide

/-- **C7, amended.** The accumulator adds the slack to the lag; when the lag
was negative before the update *and* the slack is negative, the accumulator
is reset to zero on that step; otherwise the sum is kept — in particular a
negative slack applied to a non-negative lag may leave the accumulator
negative, with no floor. If the resulting lag is positive, the worker sleeps
for it and resets it to zero. -/
theorem throttle_lag_clamp_characterization (lag slack : Int) :
    (lag < 0 → slack < 0 → throttleStep lag slack = (0, 0))
    ∧ (¬(lag < 0 ∧ slack < 0) → 0 < lag + slack →
        throttleStep lag slack = (lag + slack, 0))
    ∧ (¬(lag < 0 ∧ slack < 0) → lag + slack ≤ 0 →
        throttleStep lag slack = (0, lag + slack)) := by
  refine ⟨?_, ?_, ?_⟩ <;> intro h1 h2 <;> simp only [throttleStep] <;>
    split_ifs <;> first | rfl | (exfalso; omega)

theorem throttle_lag_clamp_characterization_witness :
    throttleStep (-2) (-3) = (0, 0)
    ∧ throttleStep 1 4 = (5, 0)
    ∧ throttleStep 2 (-7) = (0, -5) := by
  refine ⟨(throttle_lag_clamp_characterization (-2) (-3)).1 (by decide) (by decide),
    ((throttle_lag_clamp_characterization 1 4).2.1 (by decide) (by decide)).trans (by decide),
    ((throttle_lag_clamp_characterization 2 (-7)).2.2 (by decide) (by decide)).trans (by decide)⟩

/-- **C6.** For a position strictly below the memoized log section, the
scenario cursor returns the memoized entry with the content settings
overlaid, and leaves the player state — in particular the memoized section
and its order — unchanged; the overlay rewrites exactly the three configured
content fields for POST/PUT/PATCH entries and is the identity on every other
method. -/
theorem memoized_lookup_overlay (p : Player) (position : Nat)
    (h : position < p.logEntries.length) :
    nextRequest p position =
      (some (contentSettings p.options (p.logEntries.get ⟨position, h⟩)), p)
    ∧ (∀ (o : Options) (r : Request),
        (r.method = "POST" ∨ r.method = "PUT" ∨ r.method = "PATCH") →
        contentSettings o r =
          { r with
            contentLength := o.postContentLength
            contentLengthDeviation := o.postContentLengthDeviation
            setContentLength := o.postSetContentLength })
    ∧ (∀ (o : Options) (r : Request),
        ¬(r.method = "POST" ∨ r.method = "PUT" ∨ r.method = "PATCH") →
        contentSettings o r = r) := by
  refine ⟨?_, ?_, ?_⟩
  · unfold nextRequest
    rw [dif_pos h]
  · intro o r hm
    unfold contentSettings
    rw [if_pos hm]
  · intro o r hm
    unfold contentSettings
    rw [if_neg hm]

theorem memoized_lookup_overlay_witness :
    0 < memoPlayer.logEntries.length
    ∧ nextRequest memoPlayer 0 =
        (some ⟨"POST", "h", "/p", 0, 0, false⟩, memoPlayer) := by
  refine ⟨by decide, ?_⟩
  have h := (memoized_lookup_overlay memoPlayer 0 (by decide)).1
  rw [h]
  decide

/-- **C10.** For a descriptor whose deviation is positive but whose
truncated product `int(float64(ContentLength) * ContentLengthDeviation)` is
zero, the client attaches a body and `deviate` calls `rand.Intn(0)`, which
panics: request construction is not total over the descriptors the public
interface accepts. -/
theorem createHTTPRequest_panics_on_vanishing_deviation
    (o : Options) (r : Request) (rnd : Nat)
    (hd : 0 < r.contentLengthDeviation)
    (h0 : ratTrunc ((r.contentLength : ℚ) * r.contentLengthDeviation) = 0) :
    createHTTPRequest o r rnd = none := by
  unfold createHTTPRequest deviateMin deviate intn
  simp [hd, h0]

theorem createHTTPRequest_panics_on_vanishing_deviation_witness :
    (0 : ℚ) < zeroLengthPost.contentLengthDeviation
    ∧ ratTrunc ((zeroLengthPost.contentLength : ℚ) *
        zeroLengthPost.contentLengthDeviation) = 0
    ∧ createHTTPRequest blankOptions zeroLengthPost 7 = none :=
  ⟨by norm_num [zeroLengthPost], by norm_num [ratTrunc, zeroLengthPost],
    createHTTPRequest_panics_on_vanishing_deviation blankOptions zeroLengthPost 7
      (by norm_num [zeroLengthPost]) (by norm_num [ratTrunc, zeroLengthPost])⟩

/-- `checkHaltStatus` holds exactly when `HaltOn500` is set and the
server-error counter has reached the halt threshold. -/
theorem checkHaltStatus_eq_true (p : Player) :
    checkHaltStatus p = true ↔
      (p.options.haltOn500 = true ∧ p.options.haltThreshold ≤ (p.serverErrors : Int)) := by
  unfold checkHaltStatus
  split_ifs with h
  · simp only [false_iff]
    rintro ⟨h5, hT⟩
    rcases h with h | h
    · exact h h5
    · omega
  · push_neg at h
    simp only [true_iff]
    exact ⟨h.1, h.2⟩

/-- `checkHaltError` holds exactly when the request-error counter has
reached the halt threshold. -/
theorem checkHaltError_eq_true (p : Player) :
    checkHaltError p = true ↔ p.options.haltThreshold ≤ (p.errors : Int) := by
  unfold checkHaltError
  split_ifs with h
  · simp only [false_iff]
    omega
  · simp only [true_iff]
    omega

/-- **C3.** Each reported `ServerError` result increments the server-error
counter; `checkError` yields the terminal `ErrServerError` exactly when the
reported result is a `ServerError`, `HaltOn500` is set, and the incremented
counter reaches the halt threshold (this is the only path on which `stop`
ever delivers `ErrServerError` to the waiting callers); and without
`HaltOn500`, no result sequence ever terminates the session with
`ErrServerError`. -/
theorem server_error_halt_characterization (p : Player) :
    ((checkError p (some .serverError)).1).serverErrors = p.serverErrors + 1
    ∧ (∀ e : Option PErr,
        (checkError p e).2 = some PErr.serverError ↔
          (e = some PErr.serverError ∧ p.options.haltOn500 = true ∧
            p.options.haltThreshold ≤ (p.serverErrors : Int) + 1))
    ∧ (∀ es : List (Option PErr), p.options.haltOn500 = false →
        runResults p es ≠ some PErr.serverError) := by
  refine ⟨?_, ?_, ?_⟩
  · simp only [checkError]
    split_ifs <;> rfl
  · intro e
    cases e with
    | none => simp [checkError]
    | some pe =>
      cases pe with
      | serverError =>
        simp only [checkError]
        split_ifs with h
        · have h' := (checkHaltStatus_eq_true _).mp h
          push_cast at h'
          constructor
          · intro _
            exact ⟨by trivial, h'.1, by omega⟩
          · intro _
            rfl
        · constructor
          · intro hfalse
            exact absurd hfalse (by simp)
          · rintro ⟨-, h5, hT⟩
            refine absurd ((checkHaltStatus_eq_true
              { p with serverErrors := p.serverErrors + 1 }).mpr ⟨h5, ?_⟩) h
            show p.options.haltThreshold ≤ ((p.serverErrors + 1 : Nat) : Int)
            omega
      | requestError =>
        simp only [checkError]
        split_ifs <;> simp
      | noRequests => simp [checkError]
      | transportError =>
        simp only [checkError]
        split_ifs <;> simp
  · intro es
    induction es generalizing p with
    | nil => intro h5; simp [runResults]
    | cons e es ih =>
      intro h5
      cases e with
      | none =>
        simp only [runResults, checkError]
        exact ih { p with errors := 0, serverErrors := 0 } h5
      | some pe =>
        cases pe with
        | noRequests => simp [runResults, checkError]
        | serverError =>
          have hfalse : checkHaltStatus { p with serverErrors := p.serverErrors + 1 } = false := by
            cases hb : checkHaltStatus { p with serverErrors := p.serverErrors + 1 } with
            | false => rfl
            | true =>
              have h' := (checkHaltStatus_eq_true
                { p with serverErrors := p.serverErrors + 1 }).mp hb
              rw [show ({ p with serverErrors := p.serverErrors + 1 } : Player).options = p.options
                from rfl, h5] at h'
              exact absurd h'.1 (by simp)
          simp only [runResults, checkError, hfalse]
          exact ih { p with serverErrors := p.serverErrors + 1 } h5
        | requestError =>
          simp only [runResults, checkError]
          split_ifs <;>
            first
              | exact ih { p with errors := p.errors + 1 } h5
              | simp
        | transportError =>
          simp only [runResults, checkError]
          split_ifs <;>
            first
              | exact ih { p with errors := p.errors + 1 } h5
              | simp

theorem server_error_halt_characterization_witness :
    (New blankOptions none).options.haltOn500 = false
    ∧ runResults (New blankOptions none) [some PErr.serverError, some PErr.serverError]
        ≠ some PErr.serverError :=
  ⟨by decide,
    (server_error_halt_characterization (New blankOptions none)).2.2 _ (by decide)⟩

/-- Continuing a failure run can only lengthen the recorded maximum. -/
theorem le_maxFailStreakAux (es : List (Option PErr)) :
    ∀ cur : Nat, cur ≤ maxFailStreakAux cur es := by
  induction es with
  | nil => intro cur; simp [maxFailStreakAux]
  | cons e es ih =>
    intro cur
    cases e with
    | none => exact Nat.le_max_left _ _
    | some pe => exact (Nat.le_succ cur).trans (ih (cur + 1))

/-- While every failure run stays below the halt threshold, `runResults`
never halts: both counters remain bounded by the current failure run. -/
theorem runResults_below_streak (es : List (Option PErr)) :
    ∀ (p : Player) (cur : Nat), p.errors ≤ cur → p.serverErrors ≤ cur →
      (maxFailStreakAux cur es : Int) < p.options.haltThreshold →
      runResults p es ≠ some PErr.requestError ∧
        runResults p es ≠ some PErr.serverError := by
  induction es with
  | nil => intro p cur _ _ _; simp [runResults]
  | cons e es ih =>
    intro p cur he hs hT
    cases e with
    | none =>
      have hmax : (maxFailStreakAux 0 es : Int) ≤ maxFailStreakAux cur (none :: es) := by
        exact_mod_cast Nat.le_max_right cur (maxFailStreakAux 0 es)
      simp only [runResults, checkError]
      exact ih _ 0 (Nat.le_refl 0) (Nat.le_refl 0)
        (by show (maxFailStreakAux 0 es : Int) < p.options.haltThreshold; omega)
    | some pe =>
      have hcur1 : ((cur : Int) + 1) ≤ maxFailStreakAux (cur + 1) es := by
        exact_mod_cast le_maxFailStreakAux es (cur + 1)
      cases pe with
      | noRequests => simp [runResults, checkError]
      | serverError =>
        have hT' : (maxFailStreakAux (cur + 1) es : Int) < p.options.haltThreshold := hT
        have hfalse : checkHaltStatus { p with serverErrors := p.serverErrors + 1 } = false := by
          cases hb : checkHaltStatus { p with serverErrors := p.serverErrors + 1 } with
          | false => rfl
          | true =>
            have h' := (checkHaltStatus_eq_true _).mp hb
            exfalso
            have := h'.2
            push_cast at this
            omega
        simp only [runResults, checkError, hfalse]
        exact ih _ (cur + 1) (by show p.errors ≤ cur + 1; omega)
          (by show p.serverErrors + 1 ≤ cur + 1; omega) hT'
      | requestError =>
        have hT' : (maxFailStreakAux (cur + 1) es : Int) < p.options.haltThreshold := hT
        have hfalse : checkHaltError { p with errors := p.errors + 1 } = false := by
          cases hb : checkHaltError { p with errors := p.errors + 1 } with
          | false => rfl
          | true =>
            have h' := (checkHaltError_eq_true _).mp hb
            exfalso
            push_cast at h'
            omega
        simp only [runResults, checkError, hfalse]
        exact ih _ (cur + 1) (by show p.errors + 1 ≤ cur + 1; omega)
          (by show p.serverErrors ≤ cur + 1; omega) hT'
      | transportError =>
        have hT' : (maxFailStreakAux (cur + 1) es : Int) < p.options.haltThreshold := hT
        have hfalse : checkHaltError { p with errors := p.errors + 1 } = false := by
          cases hb : checkHaltError { p with errors := p.errors + 1 } with
          | false => rfl
          | true =>
            have h' := (checkHaltError_eq_true _).mp hb
            exfalso
            push_cast at h'
            omega
        simp only [runResults, checkError, hfalse]
        exact ih _ (cur + 1) (by show p.errors + 1 ≤ cur + 1; omega)
          (by show p.serverErrors ≤ cur + 1; omega) hT'

/-- **C2.** A successful (nil) result resets both failure counters to zero;
consequently, starting from zeroed counters, no result sequence in which
every run of consecutive failures is shorter than the halt threshold can
terminate the session with `ErrRequestError` or `ErrServerError`. -/
theorem success_resets_counters_and_halts_need_streak (p : Player) :
    ((checkError p none).1.errors = 0 ∧ (checkError p none).1.serverErrors = 0)
    ∧ (∀ es : List (Option PErr), p.errors = 0 → p.serverErrors = 0 →
        (maxFailStreak es : Int) < p.options.haltThreshold →
        runResults p es ≠ some PErr.requestError ∧
          runResults p es ≠ some PErr.serverError) := by
  refine ⟨⟨rfl, rfl⟩, ?_⟩
  intro es h1 h2 h3
  exact runResults_below_streak es p 0 (by omega) (by omega) h3

/-- The result sequence used by the C2 witness: two failures separated by a
success (longest failure run has length 1). -/
def streakResults : List (Option PErr) :=
  [some .transportError, none, some .transportError]

theorem success_resets_counters_and_halts_need_streak_witness :
    ((checkError thresholdTwoPlayer none).1.errors = 0
      ∧ (checkError thresholdTwoPlayer none).1.serverErrors = 0)
    ∧ (runResults thresholdTwoPlayer streakResults ≠ some PErr.requestError
      ∧ runResults thresholdTwoPlayer streakResults ≠ some PErr.serverError) :=
  ⟨(success_resets_counters_and_halts_need_streak thresholdTwoPlayer).1,
    (success_resets_counters_and_halts_need_streak thresholdTwoPlayer).2
      streakResults (by decide) (by decide) (by decide)⟩

/-- Truncation toward zero agrees with the floor on non-negative inputs. -/
theorem ratTrunc_of_nonneg (q : ℚ) (h : 0 ≤ q) : ratTrunc q = ⌊q⌋ := by
  unfold ratTrunc
  rw [if_pos h]

/-- The floor never exceeds the rounding of the same rational. -/
theorem floor_le_round_self (q : ℚ) : ⌊q⌋ ≤ round q := by
  rw [round_eq]
  exact Int.floor_le_floor (by linarith)

/-- Rounding a non-negative rational is non-negative. -/
theorem round_nonneg_of_nonneg (q : ℚ) (h : 0 ≤ q) : 0 ≤ round q := by
  rw [round_eq]
  exact Int.floor_nonneg.mpr (by linarith)

/-- **C9.** When the client attaches a random payload to a descriptor with
content length `L ≥ 0` and deviation `d ≥ 0`, the generated body size `B`
lies within `[max(0, L − round(L·d)), L + round(L·d)]`, and when the
descriptor asks for an explicit length the request's `Content-Length` field
equals `B`. -/
theorem payload_size_within_deviation_bounds (o : Options) (r : Request) (rnd : Nat)
    (hL : 0 ≤ r.contentLength) (hd : 0 ≤ r.contentLengthDeviation)
    (br : BuiltRequest) (B : Int)
    (hbr : createHTTPRequest o r rnd = some br) (hB : br.body = some B) :
    max 0 (r.contentLength - round ((r.contentLength : ℚ) * r.contentLengthDeviation)) ≤ B
    ∧ B ≤ r.contentLength + round ((r.contentLength : ℚ) * r.contentLengthDeviation)
    ∧ (r.setContentLength = true → br.contentLengthHeader = B) := by
  simp only [createHTTPRequest] at hbr
  by_cases hc : 0 < r.contentLength ∨ 0 < r.contentLengthDeviation
  · rw [if_pos hc] at hbr
    cases hdm : deviateMin r.contentLength r.contentLengthDeviation rnd with
    | none =>
      rw [hdm] at hbr
      exact absurd hbr (by simp)
    | some cl =>
      rw [hdm] at hbr
      have hbr' := (Option.some.inj hbr).symm
      subst hbr'
      have hclB : cl = B := Option.some.inj hB
      subst hclB
      simp only [deviateMin, deviate, intn] at hdm
      set di := ratTrunc ((r.contentLength : ℚ) * r.contentLengthDeviation) with hdi
      by_cases hzero : 2 * di ≤ 0
      · rw [if_pos hzero] at hdm
        exact absurd hdm (by simp)
      · push_neg at hzero
        rw [if_neg (not_le.mpr hzero)] at hdm
        simp only [Option.map_some'] at hdm
        have hcl := Option.some.inj hdm
        have hprod : (0 : ℚ) ≤ (r.contentLength : ℚ) * r.contentLengthDeviation :=
          mul_nonneg (by exact_mod_cast hL) hd
        have hfloor : di = ⌊(r.contentLength : ℚ) * r.contentLengthDeviation⌋ := by
          rw [hdi, ratTrunc_of_nonneg _ hprod]
        have hdiR : di ≤ round ((r.contentLength : ℚ) * r.contentLengthDeviation) := by
          rw [hfloor]
          exact floor_le_round_self _
        have hR0 : 0 ≤ round ((r.contentLength : ℚ) * r.contentLengthDeviation) :=
          round_nonneg_of_nonneg _ hprod
        have hdipos : 0 < di := by omega
        have hu0 : 0 ≤ (rnd : Int) % (2 * di) :=
          Int.emod_nonneg _ (by omega)
        have hu2 : (rnd : Int) % (2 * di) < 2 * di :=
          Int.emod_lt_of_pos _ (by omega)
        set R := round ((r.contentLength : ℚ) * r.contentLengthDeviation) with hRdef
        refine ⟨?_, ?_, ?_⟩
        · rw [max_le_iff]
          constructor <;> split_ifs at hcl <;> omega
        · split_ifs at hcl <;> omega
        · intro hset
          simp only [hset, if_true]
  · rw [if_neg hc] at hbr
    have hbr' := (Option.some.inj hbr).symm
    subst hbr'
    exact absurd hB (by simp)

theorem payload_size_within_deviation_bounds_witness :
    0 ≤ contentPut.contentLength
    ∧ createHTTPRequest serverOptions contentPut 7 = some contentPutBuilt
    ∧ (max 0 (contentPut.contentLength -
          round ((contentPut.contentLength : ℚ) * contentPut.contentLengthDeviation))
        ≤ (457 : Int)
      ∧ (457 : Int) ≤ contentPut.contentLength +
          round ((contentPut.contentLength : ℚ) * contentPut.contentLengthDeviation)
      ∧ (contentPut.setContentLength = true → contentPutBuilt.contentLengthHeader = 457)) := by
  have hbr : createHTTPRequest serverOptions contentPut 7 = some contentPutBuilt := by
    norm_num [createHTTPRequest, serverOptions, blankOptions, contentPut, contentPutBuilt,
      deviateMin, deviate, intn, ratTrunc, requestAddress, hostHeader]
    refine ⟨fun h => absurd h (by decide), fun h => absurd h (by decide),
      fun h => absurd h (by decide)⟩
  exact ⟨by norm_num [contentPut], hbr,
    payload_size_within_deviation_bounds serverOptions contentPut 7
      (by norm_num [contentPut]) (by norm_num [contentPut]) contentPutBuilt 457 hbr
      (by norm_num [contentPutBuilt])⟩

/-- **C5, counterexample.** In once mode, a session whose first lookup (at
position 0) finds no entries does not deliver `ErrNoRequests`: the single
worker is dropped and the session terminates delivering `nil` to every
waiting caller of `Play`/`Once`. -/
theorem empty_scenario_once_mode_returns_nil :
    (serve emptyOnceSession 0).result = some none
    ∧ (serve emptyOnceSession 0).result ≠ some (some PErr.noRequests) := by
  decide

/-- **C5, amended.** If a session's first request lookup (a worker offer at
position 0) finds no entries — empty memoized log section, empty user
request list, and a reader that is absent or exhausted before yielding any
entry — the session terminates: in loop mode (`Play`) the driver stops and
delivers `ErrNoRequests` to every waiting caller; in once mode the worker is
dropped instead and, when it was the last open worker, the session
terminates delivering `nil`. -/
theorem empty_scenario_first_lookup_terminates (s : Session) (i : Nat) (w : Worker)
    (hres : s.result = none) (hw : s.workers[i]? = some w)
    (hopen : w.closed = false) (hpos : w.position = 0)
    (hlog : s.player.logEntries = []) (hcustom : s.player.customRequests = [])
    (hal : s.player.accessLog = none ∨ s.player.accessLog = some []) :
    (s.once = false → (serve s i).result = some (some PErr.noRequests))
    ∧ (s.once = true →
        (∀ j, j ≠ i → ∀ w', s.workers[j]? = some w' → w'.closed = true) →
        (serve s i).result = some none) := by
  have hretired : ∀ q : Player, q.logEntries = [] → q.customRequests = [] →
      nextRequestRetired q 0 = (none, q) := by
    intro q h1 h2
    unfold nextRequestRetired
    rw [dif_neg (by rw [h1]; simp), dif_neg (by rw [h2]; simp)]
  have hnr : ∃ p1 : Player, nextRequest s.player 0 = (none, p1) := by
    unfold nextRequest
    rw [dif_neg (by rw [hlog]; simp)]
    rcases hal with h | h <;> rw [h]
    · exact ⟨s.player, hretired _ hlog hcustom⟩
    · exact ⟨_, hretired { s.player with accessLog := none } hlog hcustom⟩
  obtain ⟨p1, hnr⟩ := hnr
  obtain ⟨wpos, wcl, wdisp⟩ := w
  dsimp only at hpos hopen
  subst hpos
  subst hopen
  constructor
  · intro honce
    simp only [serve, hres, Option.isSome_none, Bool.false_eq_true, if_false, hw, hnr,
      honce, if_true]
    rfl
  · intro honce hothers
    have hiw : i < s.workers.length := (List.getElem?_eq_some.mp hw).1
    have hall : (s.workers.set i ⟨0, true, wdisp⟩).all (·.closed) = true := by
      rw [List.all_eq_true]
      intro x hx
      obtain ⟨j, hj⟩ := List.mem_iff_getElem?.mp hx
      by_cases hji : j = i
      · subst hji
        rw [List.getElem?_set_eq_of_lt _ hiw] at hj
        cases hj
        rfl
      · rw [List.getElem?_set_ne (fun h => hji h.symm)] at hj
        exact hothers j hji x hj
    simp only [serve, hres, Option.isSome_none, Bool.false_eq_true, if_false, hw, hnr,
      honce, if_true, hall]
    rfl

theorem empty_scenario_first_lookup_terminates_witness :
    (serve emptyLoopSession 0).result = some (some PErr.noRequests) :=
  (empty_scenario_first_lookup_terminates emptyLoopSession 0 ⟨0, false, []⟩
    rfl (by decide) rfl rfl rfl rfl (Or.inl rfl)).1 rfl

/-! ## The once-mode session: each worker replays the whole scenario -/

/-- The content-settings overlay does not change the method. -/
theorem contentSettings_method (o : Options) (r : Request) :
    (contentSettings o r).method = r.method := by
  unfold contentSettings
  split_ifs <;> rfl

/-- The content-settings overlay is idempotent. -/
theorem contentSettings_idem (o : Options) (r : Request) :
    contentSettings o (contentSettings o r) = contentSettings o r := by
  by_cases h : r.method = "POST" ∨ r.method = "PUT" ∨ r.method = "PATCH" <;>
    simp [contentSettings, h]

/-- Under the cursor invariant the memoized section has length `n`. -/
theorem PlayerCursorInv_length (opts : Options) (ll cs : List Request) (p : Player)
    (n : Nat) (hp : PlayerCursorInv opts ll cs p n) : p.logEntries.length = n := by
  rw [hp.2.2.2.1, List.length_map, List.length_take]
  exact Nat.min_eq_left hp.2.2.1

/-- Replacing the element at a valid index shifts the position sum by the
difference of the two positions. -/
theorem sum_map_position_set (l : List Worker) :
    ∀ (i : Nat) (w w' : Worker), l[i]? = some w →
      ((l.set i w').map (·.position)).sum + w.position
        = (l.map (·.position)).sum + w'.position := by
  induction l with
  | nil => intro i w w' h; simp at h
  | cons a l ih =>
    intro i w w' h
    cases i with
    | zero =>
      simp only [List.getElem?_cons_zero, Option.some.injEq] at h
      subst h
      simp only [List.set_cons_zero, List.map_cons, List.sum_cons]
      omega
    | succ i =>
      simp only [List.getElem?_cons_succ] at h
      have := ih i w w' h
      simp only [List.set_cons_succ, List.map_cons, List.sum_cons]
      omega

/-- A list of workers all at position `k` contributes `length · k`
successes. -/
theorem sum_map_position_const (k : Nat) (l : List Worker)
    (h : ∀ w ∈ l, w.position = k) :
    (l.map (·.position)).sum = l.length * k := by
  induction l with
  | nil => simp
  | cons a l ih =>
    simp only [List.map_cons, List.sum_cons, List.length_cons]
    rw [h a (by simp), ih (fun w hw => h w (by simp [hw]))]
    ring

/-- A retired cursor serves the user request list: once the memoized section
spans all log lines, the lookup returns exactly the scenario entry at the
requested position (or end-of-scenario), leaving the state unchanged. -/
theorem nextRequestRetired_full (opts : Options) (ll cs : List Request) (q : Player)
    (pos : Nat) (hcust : q.customRequests = cs)
    (hlen : q.logEntries.length = ll.length) (hge : ll.length ≤ pos) :
    nextRequestRetired q pos = ((scenarioOf opts ll cs)[pos]?, q) := by
  unfold nextRequestRetired
  rw [dif_neg (by omega)]
  have hscen : (scenarioOf opts ll cs)[pos]? = cs[pos - ll.length]? := by
    unfold scenarioOf
    rw [List.getElem?_append_right (by simpa using hge), List.length_map]
  rw [hscen, hcust, hlen]
  by_cases h2 : pos - ll.length < cs.length
  · rw [dif_pos h2, List.getElem?_eq_getElem h2]
    rfl
  · rw [dif_neg h2, List.getElem?_eq_none (by omega)]

/-- The scenario cursor seen through its invariant: a lookup at a position
covered by the worker bound returns exactly the scenario entry at that
position (or end-of-scenario), grows the memoized section monotonically,
keeps the invariant, leaves the served position inside the new memoized
section while the reader stays live, and retires the reader at
end-of-scenario. -/
theorem nextRequest_cursor (opts : Options) (ll cs : List Request) (p : Player)
    (n pos : Nat) (hp : PlayerCursorInv opts ll cs p n)
    (hlive : ∀ t, p.accessLog = some t → pos ≤ p.logEntries.length) :
    ∃ n', n ≤ n' ∧
      PlayerCursorInv opts ll cs (nextRequest p pos).2 n' ∧
      (nextRequest p pos).1 = (scenarioOf opts ll cs)[pos]? ∧
      (∀ t, (nextRequest p pos).2.accessLog = some t →
        pos + 1 ≤ (nextRequest p pos).2.logEntries.length ∧
          ∃ t0, p.accessLog = some t0) ∧
      (pos = (scenarioOf opts ll cs).length →
        (nextRequest p pos).2.accessLog = none) := by
  obtain ⟨hopt, hcust, hn, hlogE, hal⟩ := hp
  have hlen : p.logEntries.length = n :=
    PlayerCursorInv_length opts ll cs p n ⟨hopt, hcust, hn, hlogE, hal⟩
  have hscenlen : (scenarioOf opts ll cs).length = ll.length + cs.length := by
    unfold scenarioOf
    simp
  by_cases hmem : pos < p.logEntries.length
  · -- position inside the memoized section
    have hposn : pos < n := by omega
    have hposll : pos < ll.length := by omega
    have hentry : p.logEntries.get ⟨pos, hmem⟩ = contentSettings opts (ll[pos]) := by
      have h1 : p.logEntries[pos]? = some (contentSettings opts ll[pos]) := by
        rw [hlogE, List.getElem?_map, List.getElem?_take, if_pos hposn,
          List.getElem?_eq_getElem hposll]
        rfl
      have h2 : p.logEntries[pos]? = some (p.logEntries.get ⟨pos, hmem⟩) :=
        List.getElem?_eq_getElem hmem
      exact Option.some.inj (h2.symm.trans h1)
    have hnr : nextRequest p pos = (some (contentSettings opts ll[pos]), p) := by
      unfold nextRequest
      rw [dif_pos hmem, hopt, hentry, contentSettings_idem]
    refine ⟨n, Nat.le_refl n, ?_, ?_, ?_, ?_⟩
    · rw [hnr]
      exact ⟨hopt, hcust, hn, hlogE, hal⟩
    · rw [hnr]
      unfold scenarioOf
      rw [List.getElem?_append, if_pos (by simpa using hposll), List.getElem?_map,
        List.getElem?_eq_getElem hposll]
      rfl
    · rw [hnr]
      intro t ht
      refine ⟨?_, ⟨t, ht⟩⟩
      show pos + 1 ≤ p.logEntries.length
      omega
    · intro hk
      exfalso
      omega
  · -- position at or beyond the memoized section
    have hge : n ≤ pos := by omega
    rcases hal with hsome | ⟨hnone, hnl⟩
    · -- reader still live: the worker bound pins the position to `n`
      have hposn : pos ≤ n := by
        have := hlive _ hsome
        omega
      have hpe : pos = n := by omega
      subst hpe
      cases hdrop : ll.drop pos with
      | nil =>
        -- reader exhausted exactly here: retire it and serve the suffix
        have hnll : ll.length ≤ pos := List.drop_eq_nil_iff.mp hdrop
        have hneq : pos = ll.length := by omega
        have haeq : p.accessLog = some [] := by rw [hsome, hdrop]
        have hnr : nextRequest p pos = nextRequestRetired { p with accessLog := none } pos := by
          unfold nextRequest
          rw [dif_neg hmem, haeq]
        have hret := nextRequestRetired_full opts ll cs { p with accessLog := none } pos
          hcust (by rw [show ({ p with accessLog := none } : Player).logEntries = p.logEntries
            from rfl, hlen, hneq]) (by omega)
        refine ⟨pos, Nat.le_refl _, ?_, ?_, ?_, ?_⟩
        · rw [hnr, hret]
          exact ⟨hopt, hcust, hn, hlogE, Or.inr ⟨rfl, hneq⟩⟩
        · rw [hnr, hret]
        · rw [hnr, hret]
          intro t ht
          simp at ht
        · intro hk
          rw [hnr, hret]
      | cons e rest =>
        -- the reader yields the next entry: overlay, memoize, serve
        have hlendrop : (ll.drop pos).length = ll.length - pos := List.length_drop pos ll
        have hnlt : pos < ll.length := by
          rw [hdrop] at hlendrop
          simp at hlendrop
          omega
        have he : ll[pos]? = some e := by
          have h0 := List.getElem?_drop ll pos 0
          rw [hdrop] at h0
          simpa using h0.symm
        have hev : ll[pos] = e :=
          Option.some.inj ((List.getElem?_eq_getElem hnlt).symm.trans he)
        have hrest : rest = ll.drop (pos + 1) := by
          have h2 := List.drop_drop 1 pos ll
          rw [hdrop] at h2
          simpa using h2
        have haeq : p.accessLog = some (e :: rest) := by rw [hsome, hdrop]
        have hnr : nextRequest p pos = (some (contentSettings opts e),
            { p with logEntries := p.logEntries ++ [contentSettings opts e],
                     accessLog := some rest }) := by
          unfold nextRequest
          rw [dif_neg hmem, haeq]
          dsimp only
          rw [hopt]
        refine ⟨pos + 1, by omega, ?_, ?_, ?_, ?_⟩
        · rw [hnr]
          refine ⟨hopt, hcust, by omega, ?_, ?_⟩
          · show p.logEntries ++ [contentSettings opts e]
              = (ll.take (pos + 1)).map (contentSettings opts)
            rw [List.take_succ, he, hlogE]
            simp
          · left
            show some rest = some (ll.drop (pos + 1))
            rw [hrest]
        · rw [hnr]
          unfold scenarioOf
          rw [List.getElem?_append, if_pos (by simpa using hnlt), List.getElem?_map,
            List.getElem?_eq_getElem hnlt, hev]
          rfl
        · rw [hnr]
          intro t ht
          constructor
          · show pos + 1 ≤ (p.logEntries ++ [contentSettings opts e]).length
            simp [hlen]
          · exact ⟨ll.drop pos, hsome⟩
        · intro hk
          exfalso
          omega
    · -- reader retired: serve memoized entries and the suffix
      have hnr : nextRequest p pos = nextRequestRetired p pos := by
        unfold nextRequest
        rw [dif_neg hmem, hnone]
      have hret := nextRequestRetired_full opts ll cs p pos hcust (by omega) (by omega)
      refine ⟨n, Nat.le_refl _, ?_, ?_, ?_, ?_⟩
      · rw [hnr, hret]
        exact ⟨hopt, hcust, hn, hlogE, Or.inr ⟨hnone, hnl⟩⟩
      · rw [hnr, hret]
      · rw [hnr, hret]
        intro t ht
        rw [hnone] at ht
        simp at ht
      · intro hk
        rw [hnr, hret]
        exact hnone

/-- Resetting the failure counters does not disturb the cursor. -/
theorem PlayerCursorInv_reset (opts : Options) (ll cs : List Request) (q : Player)
    (n : Nat) (h : PlayerCursorInv opts ll cs q n) :
    PlayerCursorInv opts ll cs { q with errors := 0, serverErrors := 0 } n := by
  obtain ⟨a, b, c, d, e⟩ := h
  exact ⟨a, b, c, d, e⟩

/-- One step of the once-mode session: `serve` keeps the worker count and the
session invariant, and either the session is still running or it has just
terminated with `nil` and every worker dropped. -/
theorem serve_inv (opts : Options) (ll cs : List Request) (s : Session) (i : Nat)
    (hinv : SessionInv opts ll cs s) (hres : s.result = none) :
    (serve s i).workers.length = s.workers.length ∧
    SessionInv opts ll cs (serve s i) ∧
    ((serve s i).result = none ∨
      ((serve s i).result = some none ∧
        ∀ w ∈ (serve s i).workers, w.closed = true)) := by
  obtain ⟨honce, ⟨n, hcur⟩, hws, hlive, hsum⟩ := hinv
  cases hwi : s.workers[i]? with
  | none =>
    have hserve : serve s i = s := by
      unfold serve
      rw [hres, hwi]
      rfl
    rw [hserve]
    exact ⟨rfl, ⟨honce, ⟨n, hcur⟩, hws, hlive, hsum⟩, Or.inl hres⟩
  | some w =>
    have hwmem : w ∈ s.workers := by
      obtain ⟨hlt, hh⟩ := List.getElem?_eq_some.mp hwi
      exact hh ▸ List.getElem_mem hlt
    obtain ⟨hwk, hwdisp, hwclosed⟩ := hws w hwmem
    cases hcl : w.closed with
    | true =>
      have hserve : serve s i = s := by
        unfold serve
        rw [hres, hwi]
        simp [hcl]
      rw [hserve]
      exact ⟨rfl, ⟨honce, ⟨n, hcur⟩, hws, hlive, hsum⟩, Or.inl hres⟩
    | false =>
      have hlive_w : ∀ t, s.player.accessLog = some t →
          w.position ≤ s.player.logEntries.length :=
        fun t ht => (hlive t ht w hwmem).2
      obtain ⟨n', hnn', hcur', hval, hlive', heof⟩ :=
        nextRequest_cursor opts ll cs s.player n w.position hcur hlive_w
      have hlenn : s.player.logEntries.length = n :=
        PlayerCursorInv_length opts ll cs s.player n hcur
      set q := (nextRequest s.player w.position).2 with hq
      have hlenn' : q.logEntries.length = n' :=
        PlayerCursorInv_length opts ll cs q n' hcur'
      have hpair : nextRequest s.player w.position
          = ((scenarioOf opts ll cs)[w.position]?, q) := by
        rw [← hval, hq]
      cases hscen : (scenarioOf opts ll cs)[w.position]? with
      | some r =>
        have hposlt : w.position < (scenarioOf opts ll cs).length :=
          (List.getElem?_eq_some.mp hscen).1
        have hnr2 : nextRequest s.player w.position = (some r, q) := by
          rw [hpair, hscen]
        have hserve : serve s i = { s with
            player := (checkError q none).1
            workers := s.workers.set i
              { w with position := w.position + 1, dispatched := w.dispatched ++ [r] }
            successes := s.successes + 1 } := by
          unfold serve
          rw [hres, hwi]
          simp only [Option.isSome_none, Bool.false_eq_true, if_false, hcl, hnr2]
        rw [hserve]
        have hq1 : (checkError q none).1 = { q with errors := 0, serverErrors := 0 } := rfl
        refine ⟨by rw [List.length_set], ⟨honce, ?_, ?_, ?_, ?_⟩, Or.inl hres⟩
        · exact ⟨n', by rw [hq1]; exact PlayerCursorInv_reset opts ll cs q n' hcur'⟩
        · intro x hx
          rcases List.mem_or_eq_of_mem_set hx with hx' | rfl
          · exact hws x hx'
          · refine ⟨by show w.position + 1 ≤ (scenarioOf opts ll cs).length; omega, ?_, ?_⟩
            · show w.dispatched ++ [r] = (scenarioOf opts ll cs).take (w.position + 1)
              rw [hwdisp, List.take_succ, hscen]
              rfl
            · intro hx
              have hclproj : ({ w with position := w.position + 1, dispatched := w.dispatched ++ [r] } : Worker).closed = w.closed := rfl
              rw [hclproj, hcl] at hx
              exact absurd hx (by simp)
        · intro t ht x hx
          have ht' : q.accessLog = some t := ht
          obtain ⟨hbound, t0, ht0⟩ := hlive' t ht'
          rcases List.mem_or_eq_of_mem_set hx with hx' | rfl
          · obtain ⟨hxc, hxb⟩ := hlive t0 ht0 x hx'
            refine ⟨hxc, ?_⟩
            show x.position ≤ q.logEntries.length
            omega
          · refine ⟨hcl, ?_⟩
            show w.position + 1 ≤ q.logEntries.length
            omega
        · show s.successes + 1 = ((s.workers.set i { w with position := w.position + 1, dispatched := w.dispatched ++ [r] }).map (fun x => x.position)).sum
          have hset := sum_map_position_set s.workers i w
            { w with position := w.position + 1, dispatched := w.dispatched ++ [r] } hwi
          have hproj : ({ w with position := w.position + 1, dispatched := w.dispatched ++ [r] } : Worker).position = w.position + 1 := rfl
          rw [hproj] at hset
          omega
      | none =>
        have hk : (scenarioOf opts ll cs).length ≤ w.position :=
          List.getElem?_eq_none_iff.mp hscen
        have hpe : w.position = (scenarioOf opts ll cs).length := le_antisymm hwk hk
        have halog : q.accessLog = none := heof hpe
        have hnr2 : nextRequest s.player w.position = (none, q) := by
          rw [hpair, hscen]
        have hwnew : ∀ x, x ∈ s.workers.set i { w with closed := true } →
            x.position ≤ (scenarioOf opts ll cs).length ∧
            x.dispatched = (scenarioOf opts ll cs).take x.position ∧
            (x.closed = true → x.position = (scenarioOf opts ll cs).length) := by
          intro x hx
          rcases List.mem_or_eq_of_mem_set hx with hx' | rfl
          · exact hws x hx'
          · exact ⟨hwk, hwdisp, fun _ => hpe⟩
        have hsum2 : s.successes
            = ((s.workers.set i { w with closed := true }).map (·.position)).sum := by
          have hset := sum_map_position_set s.workers i w { w with closed := true } hwi
          have hproj : ({ w with closed := true } : Worker).position = w.position := rfl
          rw [hproj] at hset
          omega
        by_cases hall : ((s.workers.set i { w with closed := true }).all (·.closed)) = true
        · have hserve : serve s i = { s with
              player := (checkError q none).1
              workers := s.workers.set i { w with closed := true }
              result := some (checkError q none).2 } := by
            unfold serve
            rw [hres, hwi]
            simp only [Option.isSome_none, Bool.false_eq_true, if_false, hcl, hnr2,
              honce, if_true, hall]
          rw [hserve]
          have hq1 : (checkError q none).1 = { q with errors := 0, serverErrors := 0 } := rfl
          refine ⟨by rw [List.length_set], ⟨honce, ?_, hwnew, ?_, hsum2⟩, Or.inr ⟨rfl, ?_⟩⟩
          · exact ⟨n', by rw [hq1]; exact PlayerCursorInv_reset opts ll cs q n' hcur'⟩
          · intro t ht
            have ht' : q.accessLog = some t := ht
            rw [halog] at ht'
            exact absurd ht' (by simp)
          · intro x hx
            exact List.all_eq_true.mp hall x hx
        · have hserve : serve s i = { s with
              player := q
              workers := s.workers.set i { w with closed := true } } := by
            unfold serve
            rw [hres, hwi]
            simp only [Option.isSome_none, Bool.false_eq_true, if_false, hcl, hnr2,
              honce, if_true, hall]
          rw [hserve]
          refine ⟨by rw [List.length_set], ⟨honce, ⟨n', hcur'⟩, hwnew, ?_, hsum2⟩, Or.inl hres⟩
          intro t ht
          have ht' : q.accessLog = some t := ht
          rw [halog] at ht'
          exact absurd ht' (by simp)

/-- Once the driver has delivered a result, every further offer is ignored. -/
theorem serve_stopped (s : Session) (i : Nat) (h : s.result.isSome = true) :
    serve s i = s := by
  unfold serve
  rw [if_pos h]

/-- Running any schedule preserves the session invariant, the worker count,
and the running-or-terminated-with-nil alternative. -/
theorem runSession_inv (opts : Options) (ll cs : List Request) (sch : List Nat) :
    ∀ s : Session, SessionInv opts ll cs s →
      (s.result = none ∨ (s.result = some none ∧ ∀ w ∈ s.workers, w.closed = true)) →
      (runSession s sch).workers.length = s.workers.length ∧
      SessionInv opts ll cs (runSession s sch) ∧
      ((runSession s sch).result = none ∨
        ((runSession s sch).result = some none ∧
          ∀ w ∈ (runSession s sch).workers, w.closed = true)) := by
  induction sch with
  | nil => exact fun s hinv hgood => ⟨rfl, hinv, hgood⟩
  | cons j sch ih =>
    intro s hinv hgood
    rcases hgood with hres | hdone
    · obtain ⟨hlen, hinv', hgood'⟩ := serve_inv opts ll cs s j hinv hres
      have hrun : runSession s (j :: sch) = runSession (serve s j) sch := rfl
      rw [hrun]
      obtain ⟨hlen2, hi2, hg2⟩ := ih (serve s j) hinv' hgood'
      exact ⟨hlen2.trans hlen, hi2, hg2⟩
    · have hstop : serve s j = s := serve_stopped s j (by rw [hdone.1]; rfl)
      have hrun : runSession s (j :: sch) = runSession s sch := by
        show runSession (serve s j) sch = runSession s sch
        rw [hstop]
      rw [hrun]
      exact ih s hinv (Or.inr hdone)

/-- **C1.** For any worker count `n ≥ 1` and any scenario (log lines and/or
user requests), a once-mode session against an always-2xx server can only
terminate by delivering `nil`, and when it does (under any serving
schedule), exactly `n · k` successful dispatches have happened where `k` is
the scenario length: each of the `n` workers has traversed positions
`0..k-1` in order, dispatching the same descriptor for the same position,
and has had its feed channel closed on reaching end-of-scenario. -/
theorem once_session_replays_scenario_n_times (o : Options) (al : Option (List Request))
    (nw : Nat) (hn : 1 ≤ nw) (sch : List Nat)
    (hterm : (runSession (initSession o al nw) sch).result.isSome = true) :
    (runSession (initSession o al nw) sch).result = some none
    ∧ (runSession (initSession o al nw) sch).successes
        = nw * (sessionScenario o al).length
    ∧ (runSession (initSession o al nw) sch).workers.length = nw
    ∧ ∀ w ∈ (runSession (initSession o al nw) sch).workers,
        w.closed = true ∧ w.position = (sessionScenario o al).length
        ∧ w.dispatched = sessionScenario o al := by
  have hscen : sessionScenario o al = scenarioOf (NewOptions o) (al.getD []) o.requests := rfl
  have hinit : SessionInv (NewOptions o) (al.getD []) o.requests (initSession o al nw) := by
    refine ⟨rfl, ⟨0, ?_⟩, ?_, ?_, ?_⟩
    · refine ⟨rfl, rfl, Nat.zero_le _, by simp [initSession, New], ?_⟩
      cases al with
      | none => right; exact ⟨rfl, rfl⟩
      | some l => left; rfl
    · intro x hx
      have hx0 : x = ⟨0, false, []⟩ := List.eq_of_mem_replicate hx
      subst hx0
      exact ⟨Nat.zero_le _, rfl, fun h => absurd h (by simp)⟩
    · intro t ht x hx
      have hx0 : x = ⟨0, false, []⟩ := List.eq_of_mem_replicate hx
      subst hx0
      exact ⟨rfl, Nat.zero_le _⟩
    · simp [initSession]
  obtain ⟨hlen, hinvf, hor⟩ := runSession_inv (NewOptions o) (al.getD []) o.requests sch
    (initSession o al nw) hinit (Or.inl rfl)
  have hlenN : (runSession (initSession o al nw) sch).workers.length = nw := by
    rw [hlen]
    simp [initSession]
  rcases hor with hnone | ⟨hres, hclosed⟩
  · rw [hnone] at hterm
    simp at hterm
  · obtain ⟨-, -, hwsf, -, hsumf⟩ := hinvf
    refine ⟨hres, ?_, hlenN, ?_⟩
    · have hallk : ∀ w ∈ (runSession (initSession o al nw) sch).workers,
          w.position = (scenarioOf (NewOptions o) (al.getD []) o.requests).length :=
        fun w hw => (hwsf w hw).2.2 (hclosed w hw)
      rw [hscen, hsumf, sum_map_position_const _ _ hallk, hlenN]
    · intro w hw
      have hk := (hwsf w hw).2.2 (hclosed w hw)
      refine ⟨hclosed w hw, by rw [hscen]; exact hk, ?_⟩
      rw [hscen, (hwsf w hw).2.1, hk]
      exact List.take_length _

theorem once_session_replays_scenario_n_times_witness :
    ((runSession twoWorkerSession twoWorkerSchedule).result.isSome = true)
    ∧ (runSession twoWorkerSession twoWorkerSchedule).result = some none
    ∧ (runSession twoWorkerSession twoWorkerSchedule).successes
        = 2 * (sessionScenario oneRequestOptions (some [logPostEntry])).length
    ∧ (∀ w ∈ (runSession twoWorkerSession twoWorkerSchedule).workers,
        w.dispatched = sessionScenario oneRequestOptions (some [logPostEntry])) := by
  have h := once_session_replays_scenario_n_times oneRequestOptions
    (some [logPostEntry]) 2 (by decide) twoWorkerSchedule (by decide)
  exact ⟨by decide, h.1, h.2.1, fun w hw => ((h.2.2.2 w hw).2.2)⟩

end Logreplay
